import Mathlib

/-!
Verification development for the `SQLiteStorage` class of `src/storage-sqlite.js`
(React Native SQLite persistence layer of the tinode-js fork).

The JavaScript source is shallowly embedded: the SQLite database is a record of
row lists, each storage method becomes a pure state transition on that record
(the success path of the promise), and JavaScript values flowing into the store
are modelled by a JSON-like inductive type.  `JSON.stringify`/`JSON.parse` are
host functions, not repository code; they are modelled by a `jsonEnc`
constructor on text cells, which records exactly the invertibility the host
guarantees (parsing a JSON encoding of `v` yields `v`).  An ordinary stored
string is modelled as `raw`; `JSON.parse` applied to it is modelled as the
failure case (the source's `_parseJSON` then returns `null`).  JavaScript
`Date` objects are modelled only where the source branches on them explicitly.
-/

set_option maxHeartbeats 1000000

namespace TinodeSQLite

/-- JSON-like JavaScript values: the shapes the store's blob-valued attributes
can take (`null`, booleans, numbers, strings, arrays, objects).  Numbers are
modelled as integers; no claim involves fractional values. -/
inductive JValue where
  | null : JValue
  | bool (b : Bool) : JValue
  | num (n : Int) : JValue
  | str (s : String) : JValue
  | arr (elems : List JValue) : JValue
  | obj (fields : List (String × JValue)) : JValue

/-- A TEXT cell of the database: either an ordinary string (`raw`) or the
`JSON.stringify` encoding of a value (`jsonEnc`).  `jsonEnc v` stands for the
(always non-empty) JSON text of `v`; keeping the encoded value abstract models
the host guarantee `JSON.parse (JSON.stringify v) = v`. -/
inductive TextVal where
  | raw (s : String) : TextVal
  | jsonEnc (v : JValue) : TextVal

/-- A cell value as stored by expo-sqlite: NULL, an integer, or text. -/
inductive SqlVal where
  | null : SqlVal
  | int (n : Int) : SqlVal
  | text (t : TextVal) : SqlVal

/-- JavaScript truthiness of a `JValue`. -/
def jsTruthy : JValue → Bool
  | .null => false
  | .bool b => b
  | .num n => n != 0
  | .str s => s != ""
  | .arr _ => true
  | .obj _ => true

/-- JavaScript truthiness of a row cell read back from the database
(a `jsonEnc` cell is a non-empty string, hence truthy). -/
def sqlTruthy : SqlVal → Bool
  | .null => false
  | .int n => n != 0
  | .text (.raw s) => s != ""
  | .text (.jsonEnc _) => true

/-- Model of `_parseJSON` (storage-sqlite.js): falsy input gives `null`;
`JSON.parse` of a JSON encoding recovers the encoded value; parsing an
ordinary stored string is modelled as the failure case, which the source
turns into `null`. `none` stands for the `null` result. -/
def _parseJSON : SqlVal → Option JValue
  | .null => none
  | .int n => if n == 0 then none else some (.num n)
  | .text (.raw _) => none
  | .text (.jsonEnc v) => some v

/-- Model of `_parseDate`: falsy input gives `null`; `new Date` on a quoted
JSON text is an invalid date (gives `null`); otherwise the date value is
represented by the cell it was constructed from.  (A non-empty plain string
is modelled as a parsable date; no claim depends on date validity.) -/
def _parseDate : SqlVal → Option SqlVal
  | .null => none
  | .int n => if n == 0 then none else some (.int n)
  | .text (.raw s) => if s == "" then none else some (.text (.raw s))
  | .text (.jsonEnc _) => none

/-- Model of `row.x || 0` for the integer counter columns. -/
def numOr0 : SqlVal → Int
  | .int n => n
  | _ => 0

/-- JavaScript `| 0` (ToInt32) on an integral number. -/
def toInt32 (n : Int) : Int :=
  if n % 4294967296 < 2147483648 then n % 4294967296 else n % 4294967296 - 4294967296

/-- How a JavaScript field value reaches a column through
`_serializeTopic` / `_serializeMessage`'s blob handling followed by the
driver's parameter binding: objects and arrays are `JSON.stringify`-ed
(`typeof v === 'object' && v !== null`), `null` binds as NULL, strings bind
as text, numbers as integers; the explicit `_deleted` boolean-to-0/1
coercion in `_serializeTopic` (and the driver's boolean binding) yields an
integer for booleans. -/
def serializeJsField : JValue → SqlVal
  | .null => .null
  | .bool b => .int (if b then 1 else 0)
  | .num n => .int n
  | .str s => .text (.raw s)
  | .arr xs => .text (.jsonEnc (.arr xs))
  | .obj fs => .text (.jsonEnc (.obj fs))

/-- Serializable topic fields (the `TOPIC_FIELDS` constant of the source). -/
def TOPIC_FIELDS : List String :=
  ["created", "updated", "deleted", "touched", "read", "recv", "seq",
   "clear", "defacs", "creds", "public", "trusted", "private", "_aux", "_deleted"]

/-- Serializable subscription fields (`SUBSCRIPTION_FIELDS`). -/
def SUBSCRIPTION_FIELDS : List String :=
  ["updated", "mode", "read", "recv", "clear", "lastSeen", "userAgent"]

/-- Serializable message fields (`MESSAGE_FIELDS`). -/
def MESSAGE_FIELDS : List String :=
  ["topic", "seq", "ts", "_status", "from", "head", "content"]

/-- A row of the `topics` table (`pub`, `priv` stand for the `public` and
`private` columns, which are Lean keywords). -/
structure TopicRow where
  name : String
  created : SqlVal := .null
  updated : SqlVal := .null
  deleted : SqlVal := .null
  touched : SqlVal := .null
  read : SqlVal := .null
  recv : SqlVal := .null
  seq : SqlVal := .null
  clear : SqlVal := .null
  defacs : SqlVal := .null
  creds : SqlVal := .null
  pub : SqlVal := .null
  trusted : SqlVal := .null
  priv : SqlVal := .null
  _aux : SqlVal := .null
  _deleted : SqlVal := .null
  tags : SqlVal := .null
  acs : SqlVal := .null

/-- The incoming topic object of `updTopic`: its serializable fields as a
property list (`hasOwnProperty f` = `f` has a binding), the `_new` flag, the
`_tags` array (present iff `Array.isArray(src._tags)`), the `acs` property,
and the JSON produced by `getAccessMode().jsonHelper()` when the object has a
`getAccessMode` function. -/
structure JsTopic where
  name : String
  _new : Bool := false
  fields : List (String × JValue) := []
  _tags : Option (List JValue) := none
  acs : Option JValue := none
  accessModeJson : Option JValue := none

/-- Column lookup by serialized field name. -/
def getTopicCol (r : TopicRow) : String → SqlVal
  | "created" => r.created
  | "updated" => r.updated
  | "deleted" => r.deleted
  | "touched" => r.touched
  | "read" => r.read
  | "recv" => r.recv
  | "seq" => r.seq
  | "clear" => r.clear
  | "defacs" => r.defacs
  | "creds" => r.creds
  | "public" => r.pub
  | "trusted" => r.trusted
  | "private" => r.priv
  | "_aux" => r._aux
  | "_deleted" => r._deleted
  | "tags" => r.tags
  | "acs" => r.acs
  | _ => .null

/-- Column update by serialized field name (the names the `TOPIC_FIELDS`
loop of `_serializeTopic` can write). -/
def setTopicCol (r : TopicRow) (f : String) (v : SqlVal) : TopicRow :=
  match f with
  | "created" => { r with created := v }
  | "updated" => { r with updated := v }
  | "deleted" => { r with deleted := v }
  | "touched" => { r with touched := v }
  | "read" => { r with read := v }
  | "recv" => { r with recv := v }
  | "seq" => { r with seq := v }
  | "clear" => { r with clear := v }
  | "defacs" => { r with defacs := v }
  | "creds" => { r with creds := v }
  | "public" => { r with pub := v }
  | "trusted" => { r with trusted := v }
  | "private" => { r with priv := v }
  | "_aux" => { r with _aux := v }
  | "_deleted" => { r with _deleted := v }
  | _ => r

/-- One iteration of the `TOPIC_FIELDS.forEach` loop of `_serializeTopic`:
when the incoming object has the field, the column is overwritten with the
serialized value, otherwise the row is left alone. -/
def applyTopicField (src : JsTopic) (r : TopicRow) (f : String) : TopicRow :=
  match src.fields.lookup f with
  | some v => setTopicCol r f (serializeJsField v)
  | none => r

/-- The patch semantics of one column: the serialized incoming value when the
field is present on the incoming object, the previous cell otherwise. -/
def patchTopicCol (src : JsTopic) (f : String) (prev : SqlVal) : SqlVal :=
  match src.fields.lookup f with
  | some v => serializeJsField v
  | none => prev

/-- The `res` object started from scratch (`{ name: src.name }`); a column the
loop never writes binds as NULL (an `undefined` parameter binds as NULL). -/
def emptyTopicRow (name : String) : TopicRow :=
  { name := name }

/-- The object `_serializeTopic` starts from: a copy of the existing row
(`Object.assign({}, dst)`), or a fresh `{ name: src.name }`. -/
def serializeBase (dst : Option TopicRow) (src : JsTopic) : TopicRow :=
  match dst with
  | some d => d
  | none => emptyTopicRow src.name

/-- The `Array.isArray(src._tags)` step of `_serializeTopic`. -/
def applyTags (src : JsTopic) (r : TopicRow) : TopicRow :=
  match src._tags with
  | some lst => { r with tags := .text (.jsonEnc (.arr lst)) }
  | none => r

/-- The `src.acs` step of `_serializeTopic`: when `src.acs` is truthy, the
stored JSON is `getAccessMode().jsonHelper()` if the object has a
`getAccessMode` function, else `src.acs` itself. -/
def applyAcs (src : JsTopic) (r : TopicRow) : TopicRow :=
  match src.acs with
  | some a =>
      if jsTruthy a then
        { r with acs := .text (.jsonEnc (src.accessModeJson.getD a)) }
      else r
  | none => r

/-- Model of `_serializeTopic(dst, src)`: `Object.assign` copy of the existing
row (or a fresh `{ name }`), then the `TOPIC_FIELDS` patch loop, then the
`_tags` array handling, then the `acs` handling. -/
def _serializeTopic (dst : Option TopicRow) (src : JsTopic) : TopicRow :=
  applyAcs src (applyTags src (TOPIC_FIELDS.foldl (applyTopicField src) (serializeBase dst src)))

/-- A row of the `users` table. -/
structure UserRow where
  uid : String
  pub : SqlVal

/-- A row of the `subscriptions` table (composite primary key `(topic, uid)`). -/
structure SubRow where
  topic : String
  uid : String
  updated : SqlVal := .null
  mode : SqlVal := .null
  read : SqlVal := .null
  recv : SqlVal := .null
  clear : SqlVal := .null
  lastSeen : SqlVal := .null
  userAgent : SqlVal := .null

/-- A row of the `messages` table (composite primary key `(topic, seq)`;
`from_uid` is the column name used by the schema). -/
structure MsgRow where
  topic : String
  seq : Int
  ts : SqlVal := .null
  _status : SqlVal := .null
  from_uid : SqlVal := .null
  head : SqlVal := .null
  content : SqlVal := .null

/-- A row of the `dellog` table (composite primary key `(topic, low, hi)`). -/
structure DelRow where
  topic : String
  clear : Int
  low : Int
  hi : Int
deriving DecidableEq

/-- The persistent state reachable through a `SQLiteStorage` instance:
the `_ready` flag, whether `_db` holds an open handle, and the five tables
(which live in the database file and survive a handle reopen). -/
structure Store where
  ready : Bool := false
  dbOpen : Bool := false
  topics : List TopicRow := []
  users : List UserRow := []
  subscriptions : List SubRow := []
  messages : List MsgRow := []
  dellog : List DelRow := []

/-- `isReady()`: `this._ready && this._db !== null`. -/
def isReady (st : Store) : Bool :=
  st.ready && st.dbOpen

/-- `SELECT * FROM topics WHERE name = ?` via `getFirstAsync`. -/
def findTopicRow (rows : List TopicRow) (name : String) : Option TopicRow :=
  rows.find? (fun r => r.name == name)

/-- `INSERT OR REPLACE` keyed on `name`: conflicting rows are deleted and the
new row inserted. -/
def upsertTopicRow (rows : List TopicRow) (r : TopicRow) : List TopicRow :=
  rows.filter (fun x => x.name != r.name) ++ [r]

/-- Model of `updTopic(topic)`: skip unconfirmed (`_new`) topics, skip when not
ready, otherwise merge against the existing row with the same name and
insert-or-replace. -/
def updTopic (st : Store) (topic : JsTopic) : Store :=
  if topic._new then st
  else if !(isReady st) then st
  else
    let existing := findTopicRow st.topics topic.name
    let data := _serializeTopic existing topic
    { st with topics := upsertTopicRow st.topics data }

/-- Model of `markTopicAsDeleted(name, deleted)`:
`UPDATE topics SET _deleted = ? WHERE name = ?`. -/
def markTopicAsDeleted (st : Store) (name : String) (deleted : Bool) : Store :=
  if !(isReady st) then st
  else { st with topics := st.topics.map (fun r =>
      if r.name == name then { r with _deleted := .int (if deleted then 1 else 0) } else r) }

/-- Model of `remTopic(name)`: the transactional cascade deleting the topic
row and the subscription, message and dellog rows scoped to the name.  The
four DELETEs run inside `withTransactionAsync`, so the whole cascade is a
single state transition. -/
def remTopic (st : Store) (name : String) : Store :=
  if !(isReady st) then st
  else { st with
    topics := st.topics.filter (fun r => r.name != name),
    subscriptions := st.subscriptions.filter (fun s => s.topic != name),
    messages := st.messages.filter (fun m => m.topic != name),
    dellog := st.dellog.filter (fun d => d.topic != name) }

/-- The deserialized topic produced by `_deserializeTopicRow`.  The always-set
properties are plain values; a blob property is `some p` when the column was
truthy (`p` being the `_parseJSON` result, `none` for `null`). -/
structure DeserTopic where
  name : String
  created : Option SqlVal
  updated : Option SqlVal
  deleted : Option SqlVal
  touched : Option SqlVal
  read : Int
  recv : Int
  seq : Int
  clear : Int
  _deleted : Bool
  defacs : Option (Option JValue) := none
  creds : Option (Option JValue) := none
  pub : Option (Option JValue) := none
  trusted : Option (Option JValue) := none
  priv : Option (Option JValue) := none
  _aux : Option (Option JValue) := none
  tags : Option (Option JValue) := none
  acs : Option (Option JValue) := none

/-- Model of `_deserializeTopicRow(row)`. -/
def _deserializeTopicRow (row : TopicRow) : DeserTopic :=
  { name := row.name
    created := _parseDate row.created
    updated := _parseDate row.updated
    deleted := _parseDate row.deleted
    touched := _parseDate row.touched
    read := numOr0 row.read
    recv := numOr0 row.recv
    seq := numOr0 row.seq
    clear := numOr0 row.clear
    _deleted := match row._deleted with
      | .int n => n == 1
      | _ => false
    defacs := if sqlTruthy row.defacs then some (_parseJSON row.defacs) else none
    creds := if sqlTruthy row.creds then some (_parseJSON row.creds) else none
    pub := if sqlTruthy row.pub then some (_parseJSON row.pub) else none
    trusted := if sqlTruthy row.trusted then some (_parseJSON row.trusted) else none
    priv := if sqlTruthy row.priv then some (_parseJSON row.priv) else none
    _aux := if sqlTruthy row._aux then some (_parseJSON row._aux) else none
    tags := if sqlTruthy row.tags then some (_parseJSON row.tags) else none
    acs := if sqlTruthy row.acs then some (_parseJSON row.acs) else none }

/-- Model of `mapTopics(callback, context)`: deserializes every stored topic
row; the optional callback visits exactly the returned list in order. -/
def mapTopics (st : Store) : List DeserTopic :=
  if !(isReady st) then []
  else st.topics.map _deserializeTopicRow

/-- The in-memory client `Topic` object that `deserializeTopic` copies into. -/
structure ClientTopic where
  created : Option SqlVal := none
  updated : Option SqlVal := none
  deleted : Option SqlVal := none
  touched : Option SqlVal := none
  read : Int := 0
  recv : Int := 0
  seq : Int := 0
  clear : Int := 0
  _deleted : Bool := false
  defacs : Option (Option JValue) := none
  creds : Option (Option JValue) := none
  pub : Option (Option JValue) := none
  trusted : Option (Option JValue) := none
  priv : Option (Option JValue) := none
  _aux : Option (Option JValue) := none
  _tags : Option (List JValue) := none
  acsMode : Option JValue := none
  unread : Int := 0

/-- Model of `deserializeTopic(topic, src)` applied to a deserialized stored
row: copy every `TOPIC_FIELDS` property present on `src`, adopt `src.tags`
when it is an array, call `setAccessMode(src.acs)` when `src.acs` is truthy,
then coerce `seq` and `read` with `| 0` and recompute
`unread = Math.max(0, seq - read)`. -/
def deserializeTopic (topic : ClientTopic) (src : DeserTopic) : ClientTopic :=
  let t := { topic with
    created := src.created, updated := src.updated,
    deleted := src.deleted, touched := src.touched,
    read := src.read, recv := src.recv, seq := src.seq, clear := src.clear,
    _deleted := src._deleted,
    defacs := if src.defacs.isSome then src.defacs else topic.defacs,
    creds := if src.creds.isSome then src.creds else topic.creds,
    pub := if src.pub.isSome then src.pub else topic.pub,
    trusted := if src.trusted.isSome then src.trusted else topic.trusted,
    priv := if src.priv.isSome then src.priv else topic.priv,
    _aux := if src._aux.isSome then src._aux else topic._aux,
    _tags := match src.tags with
      | some (some (.arr lst)) => some lst
      | _ => topic._tags,
    acsMode := match src.acs with
      | some (some a) => if jsTruthy a then some a else topic.acsMode
      | _ => topic.acsMode }
  let t := { t with seq := toInt32 t.seq }
  let t := { t with read := toInt32 t.read }
  { t with unread := max 0 (t.seq - t.read) }

/-- Model of `updUser(uid, pub)`: a plain no-op when no profile value is
supplied (`pub === undefined`); otherwise insert-or-replace keyed on `uid`
with `JSON.stringify(pub)` in the `public` column. -/
def updUser (st : Store) (uid : String) (pub : Option JValue) : Store :=
  match pub with
  | none => st
  | some p =>
    if !(isReady st) then st
    else { st with users :=
      st.users.filter (fun u => u.uid != uid) ++ [UserRow.mk uid (.text (.jsonEnc p))] }

/-- Model of `remUser(uid)`. -/
def remUser (st : Store) (uid : String) : Store :=
  if !(isReady st) then st
  else { st with users := st.users.filter (fun u => u.uid != uid) }

/-- The user object returned by `mapUsers` / `getUser`. -/
structure DeserUser where
  uid : String
  pub : Option JValue

/-- Model of `mapUsers(callback, context)`. -/
def mapUsers (st : Store) : List DeserUser :=
  if !(isReady st) then []
  else st.users.map (fun u => DeserUser.mk u.uid (_parseJSON u.pub))

/-- Model of `getUser(uid)`: `undefined` (here `none`) when not ready or when
no row matches. -/
def getUser (st : Store) (uid : String) : Option DeserUser :=
  if !(isReady st) then none
  else match st.users.find? (fun u => u.uid == uid) with
    | some u => some (DeserUser.mk u.uid (_parseJSON u.pub))
    | none => none

/-- The incoming subscription object of `updSubscription` as a property list.
The `SUBSCRIPTION_FIELDS` loop copies values verbatim (no JSON encoding), so
the values here are the already-bindable cell values; binding of nested
objects is outside the model (descriptors carry scalar fields). -/
structure JsSub where
  fields : List (String × SqlVal) := []

/-- Column update for the subscription columns (`SUBSCRIPTION_FIELDS`). -/
def setSubCol (r : SubRow) (f : String) (v : SqlVal) : SubRow :=
  match f with
  | "updated" => { r with updated := v }
  | "mode" => { r with mode := v }
  | "read" => { r with read := v }
  | "recv" => { r with recv := v }
  | "clear" => { r with clear := v }
  | "lastSeen" => { r with lastSeen := v }
  | "userAgent" => { r with userAgent := v }
  | _ => r

/-- One iteration of the `SUBSCRIPTION_FIELDS.forEach` loop of
`_serializeSubscription`. -/
def applySubField (sub : JsSub) (r : SubRow) (f : String) : SubRow :=
  match sub.fields.lookup f with
  | some v => setSubCol r f v
  | none => r

/-- Model of `_serializeSubscription(dst, topicName, uid, sub)`. -/
def _serializeSubscription (dst : Option SubRow) (topicName uid : String)
    (sub : JsSub) : SubRow :=
  let res := match dst with
    | some d => d
    | none => { topic := topicName, uid := uid }
  SUBSCRIPTION_FIELDS.foldl (applySubField sub) res

/-- Model of `updSubscription(topicName, uid, sub)`: merge against the
existing `(topic, uid)` row, then insert-or-replace. -/
def updSubscription (st : Store) (topicName uid : String) (sub : JsSub) : Store :=
  if !(isReady st) then st
  else
    let existing := st.subscriptions.find? (fun s => s.topic == topicName && s.uid == uid)
    let data := _serializeSubscription existing topicName uid sub
    { st with subscriptions :=
        st.subscriptions.filter (fun s => !(s.topic == topicName && s.uid == uid)) ++ [data] }

/-- The subscription object returned by `mapSubscriptions`
(`_deserializeSubscriptionRow`). -/
structure DeserSub where
  topic : String
  uid : String
  updated : Option SqlVal
  mode : SqlVal
  read : Int
  recv : Int
  clear : Int
  lastSeen : Option SqlVal
  userAgent : SqlVal

/-- Model of `_deserializeSubscriptionRow(row)`. -/
def _deserializeSubscriptionRow (row : SubRow) : DeserSub :=
  { topic := row.topic
    uid := row.uid
    updated := _parseDate row.updated
    mode := row.mode
    read := numOr0 row.read
    recv := numOr0 row.recv
    clear := numOr0 row.clear
    lastSeen := _parseDate row.lastSeen
    userAgent := row.userAgent }

/-- Model of `mapSubscriptions(topicName, callback, context)`. -/
def mapSubscriptions (st : Store) (topicName : String) : List DeserSub :=
  if !(isReady st) then []
  else (st.subscriptions.filter (fun s => s.topic == topicName)).map _deserializeSubscriptionRow

/-- An incoming message object for `addMessage`.  `topic` and `seq` are the
key (NOT NULL columns); `ts` distinguishes a `Date` object (the source
converts it with `toISOString`) from other values. -/
inductive JsTs where
  | dateObj (iso : String) : JsTs
  | plain (v : JValue) : JsTs

structure JsMsg where
  topic : String
  seq : Int
  ts : Option JsTs := none
  _status : Option JValue := none
  fromUid : Option JValue := none
  head : Option JValue := none
  content : Option JValue := none

/-- Binding of a verbatim-copied scalar field value to a column (non-scalar
values in these positions are outside the model: the driver rejects them). -/
def bindJsValue : JValue → SqlVal
  | .null => .null
  | .bool b => .int (if b then 1 else 0)
  | .num n => .int n
  | .str s => .text (.raw s)
  | .arr xs => .text (.jsonEnc (.arr xs))
  | .obj fs => .text (.jsonEnc (.obj fs))

/-- Model of `_serializeMessage(null, msg)` followed by `addMessage`'s
undefined-to-null parameter conversion: present `head`/`content` go through
the object-stringify rule, a `Date`-valued `ts` through `toISOString`, all
other present fields verbatim; an absent field binds as NULL. -/
def _serializeMessage (msg : JsMsg) : MsgRow :=
  { topic := msg.topic
    seq := msg.seq
    ts := match msg.ts with
      | some (.dateObj iso) => .text (.raw iso)
      | some (.plain v) => bindJsValue v
      | none => .null
    _status := match msg._status with
      | some v => bindJsValue v
      | none => .null
    from_uid := match msg.fromUid with
      | some v => bindJsValue v
      | none => .null
    head := match msg.head with
      | some v => serializeJsField v
      | none => .null
    content := match msg.content with
      | some v => serializeJsField v
      | none => .null }

/-- Model of `addMessage(msg)`: `INSERT OR REPLACE` keyed on `(topic, seq)`. -/
def addMessage (st : Store) (msg : JsMsg) : Store :=
  if !(isReady st) then st
  else
    let data := _serializeMessage msg
    { st with messages :=
        st.messages.filter (fun m => !(m.topic == data.topic && m.seq == data.seq)) ++ [data] }

/-- Model of `updMessageStatus(topicName, seq, status)`:
`UPDATE messages SET _status = ? WHERE topic = ? AND seq = ?`. -/
def updMessageStatus (st : Store) (topicName : String) (seq : Int) (status : Int) : Store :=
  if !(isReady st) then st
  else { st with messages := st.messages.map (fun m =>
      if m.topic == topicName && m.seq == seq then { m with _status := .int status } else m) }

/-- JavaScript truthiness of an optional numeric argument
(`undefined` and `0` are falsy). -/
def optTruthy : Option Int → Bool
  | some n => n != 0
  | none => false

/-- Model of `remMessages(topicName, from, to)`: remove-all when both bounds
are falsy; half-open `[from, to)` when `to > 0` (an `undefined` `from` binds
as NULL, and a NULL comparison matches nothing); otherwise a single `seq`. -/
def remMessages (st : Store) (topicName : String) (fromSeq toSeq : Option Int) : Store :=
  if !(isReady st) then st
  else if !(optTruthy fromSeq) && !(optTruthy toSeq) then
    { st with messages := st.messages.filter (fun m => m.topic != topicName) }
  else if (match toSeq with | some t => decide (0 < t) | none => false) then
    match fromSeq with
    | some f =>
      { st with messages := st.messages.filter (fun m =>
          !(m.topic == topicName && decide (f ≤ m.seq) && decide (m.seq < toSeq.getD 0))) }
    | none => st
  else
    match fromSeq with
    | some f =>
      { st with messages := st.messages.filter (fun m => !(m.topic == topicName && m.seq == f)) }
    | none => st

/-- Insertion step of the descending-by-key sort used to model
`ORDER BY <key> DESC`. -/
def insertDescBy (key : α → Int) (x : α) : List α → List α
  | [] => [x]
  | y :: ys => if key x ≤ key y then y :: insertDescBy key x ys else x :: y :: ys

/-- Model of `ORDER BY <key> DESC` (tie order is unspecified in SQLite; the
claims never depend on it). -/
def sortDescBy (key : α → Int) : List α → List α
  | [] => []
  | x :: xs => insertDescBy key x (sortDescBy key xs)

/-- A `{low, hi}` range object from a range-read query. -/
structure SeqRange where
  low : Int
  hi : Option Int := none
deriving DecidableEq

/-- The `range.hi || (range.low + 1)` default. -/
def effectiveHi (r : SeqRange) : Int :=
  match r.hi with
  | some h => if h != 0 then h else r.low + 1
  | none => r.low + 1

/-- A range-read query (`readMessages` / `readDelLog` query shapes). -/
structure RangeQuery where
  ranges : Option (List SeqRange) := none
  since : Option Int := none
  before : Option Int := none
  limit : Option Int := none

/-- The `query.since > 0 ? query.since : 0` guard
(`undefined > 0` is false). -/
def sinceBound (o : Option Int) : Int :=
  match o with
  | some s => if 0 < s then s else 0
  | none => 0

/-- `Number.MAX_SAFE_INTEGER`. -/
def MAX_SAFE_INTEGER : Int := 9007199254740991

/-- The `query.before > 0 ? query.before : Number.MAX_SAFE_INTEGER` guard. -/
def beforeBound (o : Option Int) : Int :=
  match o with
  | some b => if 0 < b then b else MAX_SAFE_INTEGER
  | none => MAX_SAFE_INTEGER

/-- The rows matched for one entry of an explicit `ranges` query in
`readMessages`: a truthy `hi` selects `seq >= low AND seq < hi` ordered by
`seq DESC`, otherwise `seq = low`. -/
def msgsInRange (st : Store) (topicName : String) (r : SeqRange) : List MsgRow :=
  match r.hi with
  | some h =>
    if h != 0 then
      sortDescBy (fun m : MsgRow => m.seq)
        (st.messages.filter (fun m =>
          m.topic == topicName && decide (r.low ≤ m.seq) && decide (m.seq < h)))
    else
      st.messages.filter (fun m => m.topic == topicName && m.seq == r.low)
  | none =>
      st.messages.filter (fun m => m.topic == topicName && m.seq == r.low)

/-- The rows of the single bounded-scan mode of `readMessages`:
`seq >= since AND seq < before ORDER BY seq DESC`, with `LIMIT` appended when
`query.limit | 0` is positive. -/
def scanMsgs (st : Store) (topicName : String) (q : RangeQuery) : List MsgRow :=
  let since := sinceBound q.since
  let before := beforeBound q.before
  let limit := toInt32 (q.limit.getD 0)
  let rows := sortDescBy (fun m : MsgRow => m.seq)
    (st.messages.filter (fun m =>
      m.topic == topicName && decide (since ≤ m.seq) && decide (m.seq < before)))
  if 0 < limit then rows.take limit.toNat else rows

/-- The message object returned by `readMessages`
(`_deserializeMessageRow`). -/
structure DeserMsg where
  topic : String
  seq : Int
  ts : Option SqlVal
  _status : Int
  fromUid : SqlVal
  head : Option (Option JValue) := none
  content : Option (Option JValue) := none

/-- Model of `_deserializeMessageRow(row)` (`msg.ts = row.ts ? new Date(row.ts) : null`
keeps the cell the date was constructed from). -/
def _deserializeMessageRow (row : MsgRow) : DeserMsg :=
  { topic := row.topic
    seq := row.seq
    ts := if sqlTruthy row.ts then some row.ts else none
    _status := numOr0 row._status
    fromUid := row.from_uid
    head := if sqlTruthy row.head then some (_parseJSON row.head) else none
    content := if sqlTruthy row.content then some (_parseJSON row.content) else none }

/-- One observable callback invocation of `readMessages`: the explicit-ranges
mode calls the callback once per range with the whole deserialized group; the
bounded-scan mode calls it once per row. -/
inductive CbEvent where
  | group (msgs : List DeserMsg) : CbEvent
  | perRow (msg : DeserMsg) : CbEvent

/-- Model of `readMessages(topicName, query, callback, context)`: the returned
array and the sequence of callback invocations, in order. -/
def readMessages (st : Store) (topicName : String) (q : RangeQuery) :
    List DeserMsg × List CbEvent :=
  if !(isReady st) then ([], [])
  else match q.ranges with
  | some rs =>
    let groups := rs.map (fun r => (msgsInRange st topicName r).map _deserializeMessageRow)
    (groups.flatten, groups.map CbEvent.group)
  | none =>
    let res := (scanMsgs st topicName q).map _deserializeMessageRow
    (res, res.map CbEvent.perRow)

/-- One `INSERT OR REPLACE INTO dellog` statement keyed on `(topic, low, hi)`. -/
def upsertDelRow (rows : List DelRow) (row : DelRow) : List DelRow :=
  rows.filter (fun x => !(x.topic == row.topic && x.low == row.low && x.hi == row.hi)) ++ [row]

/-- Model of `addDelLog(topicName, delId, ranges)`: one transaction that
insert-or-replaces a `(topic, low, hi)` row stamped with `delId` for every
range of the batch, defaulting `hi` to `low + 1`. -/
def addDelLog (st : Store) (topicName : String) (delId : Int) (ranges : List SeqRange) : Store :=
  if !(isReady st) then st
  else
    let rows := ranges.foldl (fun rows r =>
      upsertDelRow rows (DelRow.mk topicName delId r.low (effectiveHi r))) st.dellog
    { st with dellog := rows }

/-- The dellog rows matched for one entry of an explicit `ranges` query in
`readDelLog`: `low >= range.low AND low < (range.hi || range.low + 1)` ordered
by `clear DESC`.  Note the filter constrains the entry's `low` column only. -/
def delLogInRange (st : Store) (topicName : String) (r : SeqRange) : List DelRow :=
  sortDescBy (fun d : DelRow => d.clear)
    (st.dellog.filter (fun d =>
      d.topic == topicName && decide (r.low ≤ d.low) && decide (d.low < effectiveHi r)))

/-- A `{low, hi}` result pair of `readDelLog`. -/
structure DelPair where
  low : Int
  hi : Int
deriving DecidableEq

/-- Model of `readDelLog(topicName, query)`. -/
def readDelLog (st : Store) (topicName : String) (q : RangeQuery) : List DelPair :=
  if !(isReady st) then []
  else match q.ranges with
  | some rs =>
    (rs.map (fun r => (delLogInRange st topicName r).map (fun e => DelPair.mk e.low e.hi))).flatten
  | none =>
    let since := sinceBound q.since
    let before := beforeBound q.before
    let limit := toInt32 (q.limit.getD 0)
    let rows := sortDescBy (fun d : DelRow => d.clear)
      (st.dellog.filter (fun d =>
        d.topic == topicName && decide (since ≤ d.clear) && decide (d.clear < before)))
    let rows := if 0 < limit then rows.take limit.toNat else rows
    rows.map (fun e => DelPair.mk e.low e.hi)

/-- Model of `maxDelId(topicName)`:
`SELECT * FROM dellog WHERE topic = ? ORDER BY clear DESC LIMIT 1`. -/
def maxDelId (st : Store) (topicName : String) : Option DelRow :=
  if !(isReady st) then none
  else (sortDescBy (fun d : DelRow => d.clear)
    (st.dellog.filter (fun d => d.topic == topicName))).head?

/-- Whether a character list contains another as a contiguous run. -/
def containsSub (s sub : List Char) : Bool :=
  (List.range (s.length + 1)).any (fun i => sub.isPrefixOf (s.drop i))

/-- The stale-handle error signature test of `_withRecovery`
(`err.message.includes(...)` over the four substrings). -/
def isStaleHandle (msg : String) : Bool :=
  containsSub msg.data "NullPointerException".data ||
  containsSub msg.data "prepareAsync".data ||
  containsSub msg.data "database is not open".data ||
  containsSub msg.data "SQLiteDatabase".data

/-- Outcome of one run of an asynchronous database operation: resolution with
a value, or rejection with an error message. -/
inductive RunResult (α : Type) where
  | ok (value : α) : RunResult α
  | err (msg : String) : RunResult α

/-- Model of `_recoverDatabase`: close the stale handle swallowing any close
error (the result does not depend on `closeFails`), then re-run
`initDatabase` (schema creation included); `initFails` scripts whether that
re-initialization rejects.  Returns the resulting state and the recovery
verdict.  The tables live in the database file and survive the reopen. -/
def _recoverDatabase (st : Store) (closeFails : Bool) (initFails : Bool) : Store × Bool :=
  let _ := closeFails
  let closed : Store := { st with dbOpen := false, ready := false }
  if initFails then (closed, false)
  else ({ closed with dbOpen := true, ready := true }, true)

/-- Model of `_withRecovery(operation, operationName)`.  `operation` is the
retried closure: a state transformer returning the next state and the run's
outcome.  The result carries the final state, the overall outcome, and how
many times `operation` was invoked. -/
def _withRecovery {α : Type} (st : Store) (operation : Store → Store × RunResult α)
    (closeFails : Bool) (initFails : Bool) : Store × RunResult α × Nat :=
  match operation st with
  | (st1, .ok v) => (st1, .ok v, 1)
  | (st1, .err m) =>
    if isStaleHandle m then
      match _recoverDatabase st1 closeFails initFails with
      | (st2, true) =>
        let (st3, r) := operation st2
        (st3, r, 2)
      | (st2, false) => (st2, .err m, 1)
    else (st1, .err m, 1)

/-! ## Helper lemmas -/

theorem mem_insertDescBy {key : α → Int} {x a : α} {l : List α} :
    a ∈ insertDescBy key x l ↔ a = x ∨ a ∈ l := by
  induction l with
  | nil => simp [insertDescBy]
  | cons y ys ih =>
    simp only [insertDescBy]
    split <;> simp only [List.mem_cons, ih] <;> tauto

theorem insertDescBy_perm (key : α → Int) (x : α) (l : List α) :
    List.Perm (insertDescBy key x l) (x :: l) := by
  induction l with
  | nil => exact List.Perm.refl _
  | cons y ys ih =>
    simp only [insertDescBy]
    split
    · exact (ih.cons y).trans (List.Perm.swap x y ys)
    · exact List.Perm.refl _

theorem sortDescBy_perm (key : α → Int) (l : List α) :
    List.Perm (sortDescBy key l) l := by
  induction l with
  | nil => exact List.Perm.refl _
  | cons x xs ih => exact (insertDescBy_perm key x (sortDescBy key xs)).trans (ih.cons x)

theorem mem_sortDescBy {key : α → Int} {a : α} {l : List α} :
    a ∈ sortDescBy key l ↔ a ∈ l :=
  (sortDescBy_perm key l).mem_iff

theorem pairwise_insertDescBy {key : α → Int} {x : α} {l : List α}
    (h : l.Pairwise (fun a b => key b ≤ key a)) :
    (insertDescBy key x l).Pairwise (fun a b => key b ≤ key a) := by
  induction l with
  | nil => simp [insertDescBy]
  | cons y ys ih =>
    simp only [insertDescBy]
    split
    case isTrue hxy =>
      refine List.pairwise_cons.mpr ⟨?_, ih h.of_cons⟩
      intro b hb
      rcases mem_insertDescBy.mp hb with rfl | hb
      · exact hxy
      · exact (List.pairwise_cons.mp h).1 b hb
    case isFalse hxy =>
      refine List.pairwise_cons.mpr ⟨?_, h⟩
      intro b hb
      rcases List.mem_cons.mp hb with rfl | hb
      · exact le_of_lt (lt_of_not_le hxy)
      · exact le_trans ((List.pairwise_cons.mp h).1 b hb) (le_of_lt (lt_of_not_le hxy))

theorem pairwise_sortDescBy (key : α → Int) (l : List α) :
    (sortDescBy key l).Pairwise (fun a b => key b ≤ key a) := by
  induction l with
  | nil => simp [sortDescBy]
  | cons x xs ih => exact pairwise_insertDescBy ih

theorem length_sortDescBy (key : α → Int) (l : List α) :
    (sortDescBy key l).length = l.length :=
  (sortDescBy_perm key l).length_eq

theorem toInt32_eq_self {n : Int} (h1 : -2147483648 ≤ n) (h2 : n < 2147483648) :
    toInt32 n = n := by
  unfold toInt32
  split <;> omega

theorem patchTopicCol_idem (src : JsTopic) (f : String) (prev : SqlVal) :
    patchTopicCol src f (patchTopicCol src f prev) = patchTopicCol src f prev := by
  unfold patchTopicCol
  cases src.fields.lookup f <;> rfl

theorem getTopicCol_setTopicCol (r : TopicRow) (f g : String) (v : SqlVal)
    (hf : f ∈ TOPIC_FIELDS) :
    getTopicCol (setTopicCol r f v) g = if f = g then v else getTopicCol r g := by
  have hf15 := hf
  simp only [TOPIC_FIELDS, List.mem_cons, List.not_mem_nil, or_false] at hf15
  rcases hf15 with rfl | rfl | rfl | rfl | rfl | rfl | rfl | rfl | rfl | rfl | rfl | rfl | rfl |
    rfl | rfl <;>
    (simp only [setTopicCol]; unfold getTopicCol; split <;> simp_all [eq_comm])

theorem getTopicCol_applyTopicField (src : JsTopic) (r : TopicRow) (f g : String)
    (hf : f ∈ TOPIC_FIELDS) :
    getTopicCol (applyTopicField src r f) g =
      if f = g then patchTopicCol src f (getTopicCol r g) else getTopicCol r g := by
  unfold applyTopicField patchTopicCol
  cases h : src.fields.lookup f with
  | none => split <;> simp_all
  | some v => simp [getTopicCol_setTopicCol r f g _ hf]

theorem getTopicCol_foldl (src : JsTopic) (l : List String)
    (hl : ∀ f ∈ l, f ∈ TOPIC_FIELDS) (r : TopicRow) (g : String) :
    getTopicCol (l.foldl (applyTopicField src) r) g =
      if g ∈ l then patchTopicCol src g (getTopicCol r g) else getTopicCol r g := by
  induction l generalizing r with
  | nil => simp
  | cons a l ih =>
    simp only [List.foldl_cons]
    rw [ih (fun f hf => hl f (List.mem_cons_of_mem a hf)),
      getTopicCol_applyTopicField src r a g (hl a (List.mem_cons_self a l))]
    by_cases hga : a = g
    · subst hga
      by_cases hgl : a ∈ l <;>
        simp [hgl, patchTopicCol_idem]
    · have hag : (g ∈ a :: l) ↔ (g ∈ l) := by
        simp only [List.mem_cons]
        constructor
        · rintro (rfl | h)
          · exact absurd rfl hga
          · exact h
        · exact Or.inr
      by_cases hgl : g ∈ l <;> simp [hgl, hga, hag]

theorem setTopicCol_name (r : TopicRow) (f : String) (v : SqlVal) :
    (setTopicCol r f v).name = r.name := by
  unfold setTopicCol
  split <;> rfl

theorem setTopicCol_tags (r : TopicRow) (f : String) (v : SqlVal) :
    (setTopicCol r f v).tags = r.tags := by
  unfold setTopicCol
  split <;> rfl

theorem setTopicCol_acs (r : TopicRow) (f : String) (v : SqlVal) :
    (setTopicCol r f v).acs = r.acs := by
  unfold setTopicCol
  split <;> rfl

theorem applyTopicField_name (src : JsTopic) (r : TopicRow) (f : String) :
    (applyTopicField src r f).name = r.name := by
  unfold applyTopicField
  cases src.fields.lookup f <;> simp [setTopicCol_name]

theorem applyTopicField_tags (src : JsTopic) (r : TopicRow) (f : String) :
    (applyTopicField src r f).tags = r.tags := by
  unfold applyTopicField
  cases src.fields.lookup f <;> simp [setTopicCol_tags]

theorem applyTopicField_acs (src : JsTopic) (r : TopicRow) (f : String) :
    (applyTopicField src r f).acs = r.acs := by
  unfold applyTopicField
  cases src.fields.lookup f <;> simp [setTopicCol_acs]

theorem foldl_applyTopicField_name (src : JsTopic) (l : List String) (r : TopicRow) :
    (l.foldl (applyTopicField src) r).name = r.name := by
  induction l generalizing r with
  | nil => rfl
  | cons a l ih => rw [List.foldl_cons, ih, applyTopicField_name]

theorem foldl_applyTopicField_tags (src : JsTopic) (l : List String) (r : TopicRow) :
    (l.foldl (applyTopicField src) r).tags = r.tags := by
  induction l generalizing r with
  | nil => rfl
  | cons a l ih => rw [List.foldl_cons, ih, applyTopicField_tags]

theorem foldl_applyTopicField_acs (src : JsTopic) (l : List String) (r : TopicRow) :
    (l.foldl (applyTopicField src) r).acs = r.acs := by
  induction l generalizing r with
  | nil => rfl
  | cons a l ih => rw [List.foldl_cons, ih, applyTopicField_acs]

theorem getTopicCol_set_tags (r : TopicRow) (x : SqlVal) (f : String)
    (hf : f ∈ TOPIC_FIELDS) :
    getTopicCol { r with tags := x } f = getTopicCol r f := by
  have hf15 := hf
  simp only [TOPIC_FIELDS, List.mem_cons, List.not_mem_nil, or_false] at hf15
  rcases hf15 with rfl | rfl | rfl | rfl | rfl | rfl | rfl | rfl | rfl | rfl | rfl | rfl | rfl |
    rfl | rfl <;> rfl

theorem getTopicCol_set_acs (r : TopicRow) (x : SqlVal) (f : String)
    (hf : f ∈ TOPIC_FIELDS) :
    getTopicCol { r with acs := x } f = getTopicCol r f := by
  have hf15 := hf
  simp only [TOPIC_FIELDS, List.mem_cons, List.not_mem_nil, or_false] at hf15
  rcases hf15 with rfl | rfl | rfl | rfl | rfl | rfl | rfl | rfl | rfl | rfl | rfl | rfl | rfl |
    rfl | rfl <;> rfl

theorem applyTags_getTopicCol (src : JsTopic) (r : TopicRow) (g : String)
    (hg : g ∈ TOPIC_FIELDS) :
    getTopicCol (applyTags src r) g = getTopicCol r g := by
  unfold applyTags
  cases src._tags with
  | none => rfl
  | some lst => exact getTopicCol_set_tags r _ g hg

theorem applyAcs_getTopicCol (src : JsTopic) (r : TopicRow) (g : String)
    (hg : g ∈ TOPIC_FIELDS) :
    getTopicCol (applyAcs src r) g = getTopicCol r g := by
  unfold applyAcs
  cases src.acs with
  | none => rfl
  | some a =>
    by_cases ha : jsTruthy a
    · simp only [ha, if_true]
      exact getTopicCol_set_acs r _ g hg
    · simp [ha]

theorem applyTags_name (src : JsTopic) (r : TopicRow) :
    (applyTags src r).name = r.name := by
  unfold applyTags
  cases src._tags <;> rfl

theorem applyAcs_name (src : JsTopic) (r : TopicRow) :
    (applyAcs src r).name = r.name := by
  unfold applyAcs
  cases src.acs with
  | none => rfl
  | some a => by_cases ha : jsTruthy a <;> simp [ha]

theorem applyAcs_tags (src : JsTopic) (r : TopicRow) :
    (applyAcs src r).tags = r.tags := by
  unfold applyAcs
  cases src.acs with
  | none => rfl
  | some a => by_cases ha : jsTruthy a <;> simp [ha]

theorem getTopicCol_serializeTopic (dst : Option TopicRow) (src : JsTopic) (g : String)
    (hg : g ∈ TOPIC_FIELDS) :
    getTopicCol (_serializeTopic dst src) g =
      patchTopicCol src g (getTopicCol (serializeBase dst src) g) := by
  have hfold := getTopicCol_foldl src TOPIC_FIELDS (fun f hf => hf) (serializeBase dst src) g
  rw [if_pos hg] at hfold
  unfold _serializeTopic
  rw [applyAcs_getTopicCol src _ g hg, applyTags_getTopicCol src _ g hg, hfold]

theorem _serializeTopic_name (dst : Option TopicRow) (src : JsTopic) :
    (_serializeTopic dst src).name = (serializeBase dst src).name := by
  unfold _serializeTopic
  rw [applyAcs_name, applyTags_name, foldl_applyTopicField_name]

theorem _serializeTopic_tags (dst : Option TopicRow) (src : JsTopic) :
    (_serializeTopic dst src).tags =
      (match src._tags with
       | some lst => SqlVal.text (.jsonEnc (.arr lst))
       | none => (serializeBase dst src).tags) := by
  unfold _serializeTopic
  rw [applyAcs_tags]
  unfold applyTags
  cases src._tags with
  | none => exact foldl_applyTopicField_tags src _ _
  | some lst => rfl

theorem _serializeTopic_acs (dst : Option TopicRow) (src : JsTopic) :
    (_serializeTopic dst src).acs =
      (match src.acs with
       | some a =>
           if jsTruthy a then SqlVal.text (.jsonEnc (src.accessModeJson.getD a))
           else (serializeBase dst src).acs
       | none => (serializeBase dst src).acs) := by
  unfold _serializeTopic
  have htags : (applyTags src (TOPIC_FIELDS.foldl (applyTopicField src)
      (serializeBase dst src))).acs = (serializeBase dst src).acs := by
    unfold applyTags
    cases src._tags with
    | none => exact foldl_applyTopicField_acs src _ _
    | some lst =>
      show (TOPIC_FIELDS.foldl (applyTopicField src) (serializeBase dst src)).acs = _
      exact foldl_applyTopicField_acs src _ _
  unfold applyAcs
  cases src.acs with
  | none => exact htags
  | some a =>
    by_cases ha : jsTruthy a
    · simp [ha]
    · simp only [ha]
      simp only [Bool.false_eq_true, if_false]
      exact htags

theorem findTopicRow_some_name {rows : List TopicRow} {n : String} {r : TopicRow}
    (h : findTopicRow rows n = some r) : r.name = n := by
  have := List.find?_some h
  simpa using this

theorem findTopicRow_upsert (rows : List TopicRow) (data : TopicRow) :
    findTopicRow (upsertTopicRow rows data) data.name = some data := by
  unfold findTopicRow upsertTopicRow
  rw [List.find?_append]
  have h1 : (rows.filter (fun x => x.name != data.name)).find?
      (fun r => r.name == data.name) = none := by
    rw [List.find?_eq_none]
    intro x hx
    have := (List.mem_filter.mp hx).2
    simpa using this
  rw [h1]
  simp [List.find?]

theorem applyTags_congr (t1 t2 : JsTopic) (h : t1._tags = t2._tags) (r : TopicRow) :
    applyTags t1 r = applyTags t2 r := by
  unfold applyTags
  rw [h]

theorem applyAcs_congr (t1 t2 : JsTopic) (h1 : t1.acs = t2.acs)
    (h2 : t1.accessModeJson = t2.accessModeJson) (r : TopicRow) :
    applyAcs t1 r = applyAcs t2 r := by
  unfold applyAcs
  rw [h1, h2]

theorem serializeTopic_ignores_unknown (dst : Option TopicRow) (t : JsTopic) (k : String)
    (v : JValue) (hk : k ∉ TOPIC_FIELDS) :
    _serializeTopic dst { t with fields := (k, v) :: t.fields } = _serializeTopic dst t := by
  have hfold : ∀ (l : List String), (∀ f ∈ l, f ∈ TOPIC_FIELDS) → ∀ r : TopicRow,
      l.foldl (applyTopicField { t with fields := (k, v) :: t.fields }) r =
      l.foldl (applyTopicField t) r := by
    intro l hl
    induction l with
    | nil => intro r; rfl
    | cons a l ih =>
      intro r
      have ha : a ∈ TOPIC_FIELDS := hl a (List.mem_cons_self a l)
      have hak : (a == k) = false := by
        by_cases hak0 : a = k
        · exact absurd (hak0 ▸ ha) hk
        · simpa using hak0
      simp only [List.foldl_cons]
      rw [ih (fun f hf => hl f (List.mem_cons_of_mem a hf))]
      have : applyTopicField { t with fields := (k, v) :: t.fields } r a =
          applyTopicField t r a := by
        unfold applyTopicField
        simp only [List.lookup, hak]
      rw [this]
  have hbase : serializeBase dst { t with fields := (k, v) :: t.fields } = serializeBase dst t := by
    unfold serializeBase
    cases dst <;> rfl
  unfold _serializeTopic
  rw [hfold TOPIC_FIELDS (fun f hf => hf),
    applyTags_congr { t with fields := (k, v) :: t.fields } t rfl,
    applyAcs_congr { t with fields := (k, v) :: t.fields } t rfl rfl, hbase]

/-! ## Claims -/

/-- The patch-semantics description of the row stored by `updTopic` relative
to the previously stored row `r`: the key is kept, a field present on the
incoming object overwrites its column with its serialized value, a field
absent from the incoming object keeps the previously stored cell, and
likewise for the `tags` and `acs` columns driven by `_tags` / `acs`. -/
def updTopicPatchProp (st : Store) (t : JsTopic) (r : TopicRow) : Prop :=
  findTopicRow (updTopic st t).topics t.name = some (_serializeTopic (some r) t) ∧
  (_serializeTopic (some r) t).name = r.name ∧
  (∀ f ∈ TOPIC_FIELDS,
     getTopicCol (_serializeTopic (some r) t) f =
       (match t.fields.lookup f with
        | some v => serializeJsField v
        | none => getTopicCol r f)) ∧
  ((_serializeTopic (some r) t).tags =
     (match t._tags with
      | some lst => SqlVal.text (.jsonEnc (.arr lst))
      | none => r.tags)) ∧
  ((_serializeTopic (some r) t).acs =
     (match t.acs with
      | some a => if jsTruthy a then SqlVal.text (.jsonEnc (t.accessModeJson.getD a)) else r.acs
      | none => r.acs))

/-- C1: topic upsert follows patch semantics.  When a row with the incoming
topic's name is already stored, `updTopic` stores exactly the merge
`_serializeTopic (some r) t`, and that merge keeps every column whose field is
absent from the incoming object at its previously stored value, overwriting
only the columns of fields present on the incoming object. -/
theorem updTopic_patch_semantics (st : Store) (t : JsTopic) (r : TopicRow)
    (hready : isReady st = true) (hnew : t._new = false)
    (hfind : findTopicRow st.topics t.name = some r) :
    updTopicPatchProp st t r := by
  have hname : r.name = t.name := findTopicRow_some_name hfind
  refine ⟨?_, ?_, ?_, ?_, ?_⟩
  · have hdn : (_serializeTopic (some r) t).name = t.name := by
      rw [_serializeTopic_name]
      exact hname
    simp only [updTopic, hnew, hready, Bool.false_eq_true, if_false, Bool.not_true,
      Bool.true_eq_false, hfind]
    rw [← hdn]
    exact findTopicRow_upsert st.topics _
  · rw [_serializeTopic_name]
    rfl
  · intro f hf
    rw [getTopicCol_serializeTopic _ _ _ hf]
    unfold patchTopicCol
    cases t.fields.lookup f <;> rfl
  · rw [_serializeTopic_tags]
    cases t._tags <;> rfl
  · rw [_serializeTopic_acs]
    cases t.acs <;> rfl

def rW1 : TopicRow :=
  { name := "t1", read := .int 5, seq := .int 9, pub := .text (.raw "oldpub"),
    trusted := .text (.jsonEnc (.obj [("verified", .bool true)])) }

def stW1 : Store :=
  { ready := true, dbOpen := true, topics := [rW1] }

def tW1 : JsTopic :=
  { name := "t1", fields := [("read", .num 7)] }

/-- Witness for C1 at a concrete store: the topic `t1` is stored, the incoming
object carries only `read`, and the patch description holds. -/
theorem updTopic_patch_semantics_w :
    isReady stW1 = true ∧ tW1._new = false ∧
    findTopicRow stW1.topics tW1.name = some rW1 ∧
    updTopicPatchProp stW1 tW1 rW1 :=
  ⟨rfl, rfl, rfl, updTopic_patch_semantics stW1 tW1 rW1 rfl rfl rfl⟩

/-- C2: the `unread` field of a loaded topic is recomputed on every load as
`Math.max(0, seq - read)` from the stored `seq` and `read` columns (clamping
to `0` when `read > seq`), and `unread` is never stored: the `topics` schema
has no such column and the serializer ignores an `unread` property on the
incoming object. -/
theorem unread_recomputed_on_load (t0 : ClientTopic) (row : TopicRow) :
    ((deserializeTopic t0 (_deserializeTopicRow row)).unread =
      max 0 ((deserializeTopic t0 (_deserializeTopicRow row)).seq -
             (deserializeTopic t0 (_deserializeTopicRow row)).read)) ∧
    (∀ s r : Int, row.seq = SqlVal.int s → row.read = SqlVal.int r →
      -2147483648 ≤ s → s < 2147483648 → -2147483648 ≤ r → r < 2147483648 →
      (deserializeTopic t0 (_deserializeTopicRow row)).unread = max 0 (s - r) ∧
      (s ≤ r → (deserializeTopic t0 (_deserializeTopicRow row)).unread = 0)) ∧
    (∀ (dst : Option TopicRow) (t : JsTopic) (v : JValue),
      _serializeTopic dst { t with fields := ("unread", v) :: t.fields } =
        _serializeTopic dst t) := by
  refine ⟨rfl, ?_, ?_⟩
  · intro s r hseq hread hs1 hs2 hr1 hr2
    have hs : numOr0 row.seq = s := by rw [hseq]; rfl
    have hr : numOr0 row.read = r := by rw [hread]; rfl
    have hmain : (deserializeTopic t0 (_deserializeTopicRow row)).unread = max 0 (s - r) := by
      show max 0 (toInt32 (numOr0 row.seq) - toInt32 (numOr0 row.read)) = max 0 (s - r)
      rw [hs, hr, toInt32_eq_self hs1 hs2, toInt32_eq_self hr1 hr2]
    refine ⟨hmain, fun hle => ?_⟩
    rw [hmain]
    omega
  · intro dst t v
    exact serializeTopic_ignores_unknown dst t "unread" v (by decide)

def rowW2 : TopicRow :=
  { name := "t2", seq := .int 5, read := .int 7 }

def t0W2 : ClientTopic := {}

/-- Witness for C2 at a concrete row with `read > seq`: the loaded `unread`
is `0`, not negative. -/
theorem unread_recomputed_on_load_w :
    (deserializeTopic t0W2 (_deserializeTopicRow rowW2)).unread = 0 := by
  have h := unread_recomputed_on_load t0W2 rowW2
  exact (h.2.1 5 7 rfl rfl (by decide) (by decide) (by decide) (by decide)).2 (by decide)

theorem addMessage_isReady (st : Store) (m : JsMsg) :
    isReady (addMessage st m) = isReady st := by
  unfold addMessage
  split <;> rfl

/-- The message-table effect of one ready `addMessage` call. -/
def upsertMsgRows (rows : List MsgRow) (m : JsMsg) : List MsgRow :=
  rows.filter (fun x => !(x.topic == m.topic && x.seq == m.seq)) ++ [_serializeMessage m]

theorem addMessage_ready (st : Store) (m : JsMsg) (h : isReady st = true) :
    addMessage st m = { st with messages := upsertMsgRows st.messages m } := by
  unfold addMessage upsertMsgRows
  rw [h]
  rfl

theorem filter_key_upsert (p : α → Bool) (l : List α) (x : α) (hx : p x = true) :
    ((l.filter (fun a => !(p a)) ++ [x]).filter p) = [x] := by
  rw [List.filter_append]
  have h1 : (l.filter (fun a => !(p a))).filter p = [] := by
    rw [List.filter_eq_nil_iff]
    intro a ha
    have h2 := (List.mem_filter.mp ha).2
    simp only [Bool.not_eq_true'] at h2
    simp [h2]
  rw [h1]
  simp [hx]

theorem filter_not_upsert (p : α → Bool) (l : List α) (x : α) (hx : p x = true) :
    ((l.filter (fun a => !(p a)) ++ [x]).filter (fun a => !(p a))) =
      l.filter (fun a => !(p a)) := by
  rw [List.filter_append]
  have h2 : [x].filter (fun a => !(p a)) = [] := by simp [hx]
  rw [h2, List.append_nil]
  induction l with
  | nil => rfl
  | cons a l ih =>
    by_cases hpa : p a = true <;> simp [List.filter_cons, hpa, ih]

/-- C3: message add is an idempotent insert-or-replace keyed on
`(topic, seq)`: adding two messages with the same key leaves exactly one
stored row for that key, holding the second call's serialization, and
re-adding an identical message leaves the state unchanged. -/
theorem addMessage_insert_or_replace (st : Store) (m1 m2 mm : JsMsg)
    (hready : isReady st = true) (ht : m1.topic = m2.topic) (hs : m1.seq = m2.seq) :
    ((addMessage (addMessage st m1) m2).messages.filter
        (fun m => m.topic == m2.topic && m.seq == m2.seq)) = [_serializeMessage m2] ∧
    addMessage (addMessage st mm) mm = addMessage st mm := by
  constructor
  · have hr1 : isReady (addMessage st m1) = true := by
      rw [addMessage_isReady]
      exact hready
    rw [addMessage_ready st m1 hready] at hr1 ⊢
    rw [addMessage_ready _ m2 hr1]
    show ((upsertMsgRows st.messages m1).filter
        (fun x => !(x.topic == m2.topic && x.seq == m2.seq))
        ++ [_serializeMessage m2]).filter
        (fun m => m.topic == m2.topic && m.seq == m2.seq) = [_serializeMessage m2]
    exact filter_key_upsert (fun m => m.topic == m2.topic && m.seq == m2.seq) _
      (_serializeMessage m2) (by simp [_serializeMessage])
  · have hrm : isReady (addMessage st mm) = true := by
      rw [addMessage_isReady]
      exact hready
    have hmsgs : upsertMsgRows (upsertMsgRows st.messages mm) mm =
        upsertMsgRows st.messages mm := by
      unfold upsertMsgRows
      rw [filter_not_upsert (fun m => m.topic == mm.topic && m.seq == mm.seq) _
        (_serializeMessage mm) (by simp [_serializeMessage])]
    rw [addMessage_ready st mm hready] at hrm ⊢
    rw [addMessage_ready _ mm hrm]
    show ({ st with messages := upsertMsgRows ({ st with
        messages := upsertMsgRows st.messages mm } : Store).messages mm } : Store) = _
    rw [show ({ st with messages := upsertMsgRows st.messages mm } : Store).messages
        = upsertMsgRows st.messages mm from rfl, hmsgs]

def stW3 : Store := { ready := true, dbOpen := true }

def m1W3 : JsMsg := { topic := "T", seq := 5, content := some (.str "first") }

def m2W3 : JsMsg := { topic := "T", seq := 5, content := some (.str "second") }

/-- Witness for C3 at a concrete store and two messages for `("T", 5)` with
different content. -/
theorem addMessage_insert_or_replace_w :
    isReady stW3 = true ∧
    ((addMessage (addMessage stW3 m1W3) m2W3).messages.filter
        (fun m => m.topic == m2W3.topic && m.seq == m2W3.seq)) = [_serializeMessage m2W3] ∧
    addMessage (addMessage stW3 m1W3) m1W3 = addMessage stW3 m1W3 := by
  have h := addMessage_insert_or_replace stW3 m1W3 m2W3 m1W3 rfl rfl rfl
  exact ⟨rfl, h.1, h.2⟩

theorem remTopic_ready (st : Store) (name : String) (h : isReady st = true) :
    remTopic st name = { st with
      topics := st.topics.filter (fun r => r.name != name),
      subscriptions := st.subscriptions.filter (fun s => s.topic != name),
      messages := st.messages.filter (fun m => m.topic != name),
      dellog := st.dellog.filter (fun d => d.topic != name) } := by
  unfold remTopic
  rw [h]
  rfl

theorem mem_filter_ne_key {α} (key : α → String) (name : String) (l : List α) (a : α) :
    a ∈ l.filter (fun x => key x != name) ↔ a ∈ l ∧ key a ≠ name := by
  rw [List.mem_filter]
  simp

theorem filter_key_eq_nil {α} (keyB : α → Bool) (l : List α)
    (h : ∀ a ∈ l, keyB a = false) : l.filter keyB = [] := by
  rw [List.filter_eq_nil_iff]
  intro a ha
  simp [h a ha]

/-- C4: `remTopic name` (one transaction) removes the topic row and every
subscription, message and dellog row scoped to that topic name; afterwards
enumerating subscriptions, messages and the deletion log for that name yields
empty results, and rows of every other topic (and all users) are untouched. -/
theorem remTopic_cascade (st : Store) (name : String) (h : isReady st = true) :
    ((remTopic st name).ready = st.ready ∧ (remTopic st name).dbOpen = st.dbOpen ∧
      (remTopic st name).users = st.users) ∧
    (∀ r : TopicRow, r ∈ (remTopic st name).topics ↔ r ∈ st.topics ∧ r.name ≠ name) ∧
    (∀ s : SubRow, s ∈ (remTopic st name).subscriptions ↔ s ∈ st.subscriptions ∧ s.topic ≠ name) ∧
    (∀ m : MsgRow, m ∈ (remTopic st name).messages ↔ m ∈ st.messages ∧ m.topic ≠ name) ∧
    (∀ d : DelRow, d ∈ (remTopic st name).dellog ↔ d ∈ st.dellog ∧ d.topic ≠ name) ∧
    findTopicRow (remTopic st name).topics name = none ∧
    mapSubscriptions (remTopic st name) name = [] ∧
    (readMessages (remTopic st name) name {}).1 = [] ∧
    readDelLog (remTopic st name) name {} = [] ∧
    maxDelId (remTopic st name) name = none := by
  rw [remTopic_ready st name h]
  have hready2 : isReady ({ st with
      topics := st.topics.filter (fun r => r.name != name),
      subscriptions := st.subscriptions.filter (fun s => s.topic != name),
      messages := st.messages.filter (fun m => m.topic != name),
      dellog := st.dellog.filter (fun d => d.topic != name) } : Store) = true := h
  refine ⟨⟨rfl, rfl, rfl⟩, ?_, ?_, ?_, ?_, ?_, ?_, ?_, ?_, ?_⟩
  · intro r
    exact mem_filter_ne_key (fun r : TopicRow => r.name) name st.topics r
  · intro s
    exact mem_filter_ne_key (fun s : SubRow => s.topic) name st.subscriptions s
  · intro m
    exact mem_filter_ne_key (fun m : MsgRow => m.topic) name st.messages m
  · intro d
    exact mem_filter_ne_key (fun d : DelRow => d.topic) name st.dellog d
  · unfold findTopicRow
    rw [List.find?_eq_none]
    intro x hx
    have hxm := (List.mem_filter.mp hx).2
    simpa using hxm
  · unfold mapSubscriptions
    rw [hready2]
    have : (st.subscriptions.filter (fun s => s.topic != name)).filter
        (fun s => s.topic == name) = [] := by
      apply filter_key_eq_nil
      intro a ha
      have := (List.mem_filter.mp ha).2
      simpa using this
    simp only [Bool.not_true, Bool.false_eq_true, if_false, this, List.map_nil]
  · unfold readMessages
    rw [hready2]
    simp only [Bool.not_true, Bool.false_eq_true, if_false]
    have hf : (st.messages.filter (fun m => m.topic != name)).filter
        (fun m => m.topic == name &&
          decide (sinceBound none ≤ m.seq) && decide (m.seq < beforeBound none)) = [] := by
      apply filter_key_eq_nil
      intro a ha
      have := (List.mem_filter.mp ha).2
      simp only [bne_iff_ne, ne_eq, decide_eq_true_eq] at this
      simp [this]
    show ((scanMsgs _ name {}).map _deserializeMessageRow) = []
    simp only [scanMsgs]
    have hl : toInt32 (Option.getD (none : Option Int) 0) = 0 := rfl
    simp only [hl, lt_self_iff_false, if_false]
    rw [hf]
    rfl
  · unfold readDelLog
    rw [hready2]
    simp only [Bool.not_true, Bool.false_eq_true, if_false]
    have hf : (st.dellog.filter (fun d => d.topic != name)).filter
        (fun d => d.topic == name &&
          decide (sinceBound none ≤ d.clear) && decide (d.clear < beforeBound none)) = [] := by
      apply filter_key_eq_nil
      intro a ha
      have := (List.mem_filter.mp ha).2
      simp only [bne_iff_ne, ne_eq, decide_eq_true_eq] at this
      simp [this]
    have hl : toInt32 (Option.getD (none : Option Int) 0) = 0 := rfl
    simp only [hl, lt_self_iff_false, if_false]
    rw [hf]
    rfl
  · unfold maxDelId
    rw [hready2]
    simp only [Bool.not_true, Bool.false_eq_true, if_false]
    have hf : (st.dellog.filter (fun d => d.topic != name)).filter
        (fun d => d.topic == name) = [] := by
      apply filter_key_eq_nil
      intro a ha
      have := (List.mem_filter.mp ha).2
      simpa using this
    rw [hf]
    rfl

def stW4 : Store :=
  { ready := true, dbOpen := true,
    topics := [{ name := "a" }, { name := "b" }],
    users := [UserRow.mk "u1" (.text (.jsonEnc (.str "p")))],
    subscriptions := [{ topic := "a", uid := "u1" }, { topic := "b", uid := "u1" }],
    messages := [{ topic := "a", seq := 1 }, { topic := "b", seq := 2 }],
    dellog := [DelRow.mk "a" 1 1 3, DelRow.mk "b" 2 5 6] }

/-- Witness for C4: removing topic `a` from a concrete store with rows for
topics `a` and `b`. -/
theorem remTopic_cascade_w :
    isReady stW4 = true ∧
    (∀ m : MsgRow, m ∈ (remTopic stW4 "a").messages ↔ m ∈ stW4.messages ∧ m.topic ≠ "a") ∧
    mapSubscriptions (remTopic stW4 "a") "a" = [] ∧
    (readMessages (remTopic stW4 "a") "a" {}).1 = [] ∧
    readDelLog (remTopic stW4 "a") "a" {} = [] ∧
    maxDelId (remTopic stW4 "a") "a" = none := by
  have hc := remTopic_cascade stW4 "a" rfl
  exact ⟨rfl, hc.2.2.2.1, hc.2.2.2.2.2.2.1, hc.2.2.2.2.2.2.2.1, hc.2.2.2.2.2.2.2.2.1,
    hc.2.2.2.2.2.2.2.2.2⟩

theorem pairwise_of_all {α} (R : α → α → Prop) (l : List α)
    (h : ∀ a ∈ l, ∀ b ∈ l, R a b) : l.Pairwise R := by
  induction l with
  | nil => exact List.Pairwise.nil
  | cons x xs ih =>
    refine List.pairwise_cons.mpr
      ⟨fun b hb => h x (List.mem_cons_self x xs) b (List.mem_cons_of_mem x hb),
       ih (fun a ha b hb => h a (List.mem_cons_of_mem x ha) b (List.mem_cons_of_mem x hb))⟩

/-- The sequence numbers an explicit query range selects: a truthy `hi`
selects the half-open interval `low <= seq < hi`, a falsy or absent `hi`
exactly `seq = low`. -/
def matchesRange (r : SeqRange) (s : Int) : Prop :=
  match r.hi with
  | some h => if h ≠ 0 then (r.low ≤ s ∧ s < h) else s = r.low
  | none => s = r.low

theorem mem_msgsInRange (st : Store) (tn : String) (r : SeqRange) (row : MsgRow) :
    row ∈ msgsInRange st tn r ↔
      row ∈ st.messages ∧ row.topic = tn ∧ matchesRange r row.seq := by
  obtain ⟨low, hi⟩ := r
  cases hi with
  | none =>
    simp only [msgsInRange, matchesRange, List.mem_filter]
    simp [and_assoc]
  | some h =>
    by_cases hh : h = 0
    · subst hh
      simp only [msgsInRange, matchesRange]
      simp [List.mem_filter, and_assoc]
    · have hb : (h != 0) = true := by simpa using hh
      simp only [msgsInRange, matchesRange, hb, if_true, hh, ne_eq, not_false_eq_true,
        mem_sortDescBy, List.mem_filter]
      simp [and_assoc]

theorem msgsInRange_sorted (st : Store) (tn : String) (r : SeqRange) :
    (msgsInRange st tn r).Pairwise (fun a b => b.seq ≤ a.seq) := by
  obtain ⟨low, hi⟩ := r
  have hconst : ∀ lst : List MsgRow,
      (lst.filter (fun m => m.topic == tn && m.seq == low)).Pairwise
        (fun a b => b.seq ≤ a.seq) := by
    intro lst
    apply pairwise_of_all
    intro a ha b hb
    have ha2 := (List.mem_filter.mp ha).2
    have hb2 := (List.mem_filter.mp hb).2
    simp only [Bool.and_eq_true, beq_iff_eq] at ha2 hb2
    rw [ha2.2, hb2.2]
  cases hi with
  | none => exact hconst _
  | some h =>
    by_cases hh : (h != 0) = true
    · simp only [msgsInRange, hh, if_true]
      exact pairwise_sortDescBy _ _
    · simp only [Bool.not_eq_true] at hh
      simp only [msgsInRange, hh, Bool.false_eq_true, if_false]
      exact hconst _

theorem scanMsgs_sorted (st : Store) (tn : String) (q : RangeQuery) :
    (scanMsgs st tn q).Pairwise (fun a b => b.seq ≤ a.seq) := by
  simp only [scanMsgs]
  split
  · exact (pairwise_sortDescBy _ _).sublist (List.take_sublist _ _)
  · exact pairwise_sortDescBy _ _

/-- C5: `readMessages` delivers messages most-recent-first.  In explicit
`ranges` mode the result is the concatenation of one group per queried range
in query order, the callback is invoked once per range with that group, each
group is internally in descending `seq` order, and a group contains exactly
the rows of the topic whose `seq` the range selects (`low <= seq < hi` for a
truthy `hi`, `seq = low` otherwise).  In bounded-scan mode the returned array
is in descending `seq` order and the callback is invoked once per row in
exactly that order. -/
theorem readMessages_order_and_ranges (st : Store) (topicName : String) (q : RangeQuery)
    (h : isReady st = true) :
    (∀ rs, q.ranges = some rs →
      (readMessages st topicName q).1 =
        (rs.map (fun r => (msgsInRange st topicName r).map _deserializeMessageRow)).flatten ∧
      (readMessages st topicName q).2 =
        rs.map (fun r => CbEvent.group ((msgsInRange st topicName r).map
          _deserializeMessageRow)) ∧
      (∀ r ∈ rs,
        ((msgsInRange st topicName r).map _deserializeMessageRow).Pairwise
          (fun a b => b.seq ≤ a.seq) ∧
        (∀ row : MsgRow, row ∈ msgsInRange st topicName r ↔
          row ∈ st.messages ∧ row.topic = topicName ∧ matchesRange r row.seq))) ∧
    (q.ranges = none →
      (readMessages st topicName q).1.Pairwise (fun a b => b.seq ≤ a.seq) ∧
      (readMessages st topicName q).2 = (readMessages st topicName q).1.map CbEvent.perRow) := by
  constructor
  · intro rs hq
    have hrm : readMessages st topicName q =
        ((rs.map (fun r => (msgsInRange st topicName r).map _deserializeMessageRow)).flatten,
         (rs.map (fun r => (msgsInRange st topicName r).map _deserializeMessageRow)).map
           CbEvent.group) := by
      unfold readMessages
      rw [h, hq]
      rfl
    refine ⟨by rw [hrm], ?_, ?_⟩
    · rw [hrm]
      simp [List.map_map, Function.comp]
    · intro r hr
      constructor
      · rw [List.pairwise_map]
        exact msgsInRange_sorted st topicName r
      · exact mem_msgsInRange st topicName r
  · intro hq
    have hrm : readMessages st topicName q =
        ((scanMsgs st topicName q).map _deserializeMessageRow,
         ((scanMsgs st topicName q).map _deserializeMessageRow).map CbEvent.perRow) := by
      unfold readMessages
      rw [h, hq]
      rfl
    refine ⟨?_, by rw [hrm]⟩
    rw [hrm]
    rw [List.pairwise_map]
    exact scanMsgs_sorted st topicName q

def stW5 : Store :=
  { ready := true, dbOpen := true,
    messages := [{ topic := "T", seq := 1 }, { topic := "T", seq := 2 },
      { topic := "T", seq := 3 }, { topic := "T", seq := 4 }, { topic := "T", seq := 7 }] }

def rangesW5 : List SeqRange := [{ low := 1, hi := some 3 }, { low := 7 }]

def qW5 : RangeQuery := { ranges := some rangesW5 }

/-- Witness for C5: the spec's own example — messages at seq 1,2,3,4,7 and the
ranges list `[(1,3), (7,none)]` yield the groups (2,1 descending) and (7). -/
theorem readMessages_order_and_ranges_w :
    isReady stW5 = true ∧
    (readMessages stW5 "T" qW5).1 =
      (rangesW5.map (fun r => (msgsInRange stW5 "T" r).map _deserializeMessageRow)).flatten ∧
    (readMessages stW5 "T" qW5).1.map (fun m => m.seq) = [2, 1, 7] := by
  have h := readMessages_order_and_ranges stW5 "T" qW5 rfl
  have h1 := (h.1 rangesW5 rfl).1
  refine ⟨rfl, h1, ?_⟩
  rw [h1]
  rfl

/-- The rows the bounded scan `since <= seq < before` of `readMessages`
matches, before ordering and `LIMIT`. -/
def matchingMsgs (st : Store) (topicName : String) (q : RangeQuery) : List MsgRow :=
  st.messages.filter (fun m =>
    m.topic == topicName && decide (sinceBound q.since ≤ m.seq) &&
      decide (m.seq < beforeBound q.before))

theorem scanMsgs_eq (st : Store) (tn : String) (q : RangeQuery) :
    scanMsgs st tn q =
      (if 0 < toInt32 (q.limit.getD 0)
       then (sortDescBy (fun m : MsgRow => m.seq) (matchingMsgs st tn q)).take
         (toInt32 (q.limit.getD 0)).toNat
       else sortDescBy (fun m : MsgRow => m.seq) (matchingMsgs st tn q)) := rfl

/-- C10: in bounded-scan mode a positive `query.limit | 0` returns exactly the
`limit` most recent matching messages — the prefix of the descending sort, of
length `min limit (number of matches)`, such that every matching row left out
has `seq` no greater than every returned row — while an absent, zero or
negative limit returns all matching messages in descending order. -/
theorem readMessages_limit (st : Store) (topicName : String) (q : RangeQuery)
    (h : isReady st = true) (hr : q.ranges = none) :
    ((¬ 0 < toInt32 (q.limit.getD 0)) →
      (readMessages st topicName q).1 =
        (sortDescBy (fun m : MsgRow => m.seq) (matchingMsgs st topicName q)).map
          _deserializeMessageRow) ∧
    (0 < toInt32 (q.limit.getD 0) →
      (readMessages st topicName q).1 =
        ((sortDescBy (fun m : MsgRow => m.seq) (matchingMsgs st topicName q)).take
          (toInt32 (q.limit.getD 0)).toNat).map _deserializeMessageRow ∧
      (readMessages st topicName q).1.length =
        min (toInt32 (q.limit.getD 0)).toNat (matchingMsgs st topicName q).length ∧
      (∀ x ∈ matchingMsgs st topicName q, x ∉ scanMsgs st topicName q →
        ∀ y ∈ scanMsgs st topicName q, x.seq ≤ y.seq)) := by
  have hrm : (readMessages st topicName q).1 =
      (scanMsgs st topicName q).map _deserializeMessageRow := by
    unfold readMessages
    rw [h, hr]
    rfl
  constructor
  · intro hlim
    rw [hrm, scanMsgs_eq, if_neg hlim]
  · intro hlim
    have htake : scanMsgs st topicName q =
        (sortDescBy (fun m : MsgRow => m.seq) (matchingMsgs st topicName q)).take
          (toInt32 (q.limit.getD 0)).toNat := by
      rw [scanMsgs_eq, if_pos hlim]
    refine ⟨by rw [hrm, htake], ?_, ?_⟩
    · rw [hrm, htake, List.length_map, List.length_take,
        length_sortDescBy]
    · intro x hxm hxs y hys
      have hperm := sortDescBy_perm (fun m : MsgRow => m.seq) (matchingMsgs st topicName q)
      have hxsort : x ∈ sortDescBy (fun m : MsgRow => m.seq) (matchingMsgs st topicName q) :=
        mem_sortDescBy.mpr hxm
      have hsplit := List.take_append_drop (toInt32 (q.limit.getD 0)).toNat
        (sortDescBy (fun m : MsgRow => m.seq) (matchingMsgs st topicName q))
      have hpair := pairwise_sortDescBy (fun m : MsgRow => m.seq)
        (matchingMsgs st topicName q)
      rw [← hsplit] at hpair
      have hcross := (List.pairwise_append.mp hpair).2.2
      rw [← hsplit] at hxsort
      rcases List.mem_append.mp hxsort with hxt | hxd
      · exact absurd (htake ▸ hxt) hxs
      · exact hcross y (htake ▸ hys) x hxd

def stW10 : Store :=
  { ready := true, dbOpen := true,
    messages := [{ topic := "T", seq := 1 }, { topic := "T", seq := 2 },
      { topic := "T", seq := 3 }, { topic := "T", seq := 4 }] }

def qW10 : RangeQuery := { limit := some 2 }

/-- Witness for C10: limit 2 over messages 1..4 returns the two most recent. -/
theorem readMessages_limit_w :
    isReady stW10 = true ∧ qW10.ranges = none ∧ 0 < toInt32 (qW10.limit.getD 0) ∧
    (readMessages stW10 "T" qW10).1 =
      ((sortDescBy (fun m : MsgRow => m.seq) (matchingMsgs stW10 "T" qW10)).take
        (toInt32 (qW10.limit.getD 0)).toNat).map _deserializeMessageRow ∧
    (readMessages stW10 "T" qW10).1.map (fun m => m.seq) = [4, 3] := by
  have h := (readMessages_limit stW10 "T" qW10 rfl rfl).2 (by decide)
  refine ⟨rfl, rfl, by decide, h.1, ?_⟩
  rw [h.1]
  rfl

theorem mem_delLogInRange (st : Store) (tn : String) (r : SeqRange) (e : DelRow) :
    e ∈ delLogInRange st tn r ↔
      e ∈ st.dellog ∧ e.topic = tn ∧ r.low ≤ e.low ∧ e.low < effectiveHi r := by
  unfold delLogInRange
  rw [mem_sortDescBy, List.mem_filter]
  simp [and_assoc]

def stC6 : Store :=
  { ready := true, dbOpen := true, dellog := [DelRow.mk "T" 1 1 10] }

def qC6 : RangeQuery := { ranges := some [{ low := 5, hi := some 8 }] }

/-- Counterexample for C6 as stated: the stored tombstone range `[1, 10)` of
topic `T` overlaps the queried span `[5, 8)` (since 1 < 8 and 5 < 10), yet
`readDelLog` returns no pair at all — the SQL filter constrains the entry's
`low` to lie inside the span, so an entry extending into the span from below
is not returned. -/
theorem readDelLog_overlap_cex :
    (stC6.dellog = [DelRow.mk "T" 1 1 10] ∧ (1 : Int) < 8 ∧ (5 : Int) < 10) ∧
    readDelLog stC6 "T" qC6 = [] := by
  constructor
  · exact ⟨rfl, by decide, by decide⟩
  · rfl

/-- C6 (amended): in explicit-ranges mode `readDelLog` returns, grouped per
queried range in query order, the `{low, hi}` pairs of exactly the stored
dellog entries of the topic whose `low` bound lies inside the queried span
`[range.low, range.hi || range.low + 1)`; an entry whose interval merely
overlaps the span from below (its `low` outside the span) is not returned. -/
theorem readDelLog_ranges_low_in_span (st : Store) (topicName : String)
    (rs : List SeqRange) (h : isReady st = true) :
    readDelLog st topicName { ranges := some rs } =
      (rs.map (fun r => (delLogInRange st topicName r).map
        (fun e => DelPair.mk e.low e.hi))).flatten ∧
    ∀ r ∈ rs, ∀ e : DelRow,
      e ∈ delLogInRange st topicName r ↔
        e ∈ st.dellog ∧ e.topic = topicName ∧ r.low ≤ e.low ∧ e.low < effectiveHi r := by
  constructor
  · unfold readDelLog
    rw [h]
    rfl
  · intro r hr e
    exact mem_delLogInRange st topicName r e

def stW6 : Store :=
  { ready := true, dbOpen := true,
    dellog := [DelRow.mk "T" 1 1 10, DelRow.mk "T" 2 6 9] }

def rangesW6 : List SeqRange := [{ low := 5, hi := some 8 }]

/-- Witness for the amended C6: of the tombstones `[1,10)` and `[6,9)` only
the one whose `low` lies in the span `[5,8)` is returned. -/
theorem readDelLog_ranges_low_in_span_w :
    isReady stW6 = true ∧
    readDelLog stW6 "T" { ranges := some rangesW6 } =
      (rangesW6.map (fun r => (delLogInRange stW6 "T" r).map
        (fun e => DelPair.mk e.low e.hi))).flatten ∧
    readDelLog stW6 "T" { ranges := some rangesW6 } = [DelPair.mk 6 9] := by
  have h := readDelLog_ranges_low_in_span stW6 "T" rangesW6 rfl
  exact ⟨rfl, h.1, rfl⟩

/-- Values of nested (object or array) JSON shape. -/
def isNested : JValue → Bool
  | .arr _ => true
  | .obj _ => true
  | _ => false

theorem serializeJsField_nested {v : JValue} (hv : isNested v = true) :
    serializeJsField v = .text (.jsonEnc v) := by
  cases v <;> first | rfl | simp [isNested] at hv

theorem updTopic_stored (st : Store) (t : JsTopic) (h : isReady st = true)
    (hnew : t._new = false) :
    findTopicRow (updTopic st t).topics t.name =
      some (_serializeTopic (findTopicRow st.topics t.name) t) := by
  have hdn : (_serializeTopic (findTopicRow st.topics t.name) t).name = t.name := by
    rw [_serializeTopic_name]
    unfold serializeBase
    cases hf : findTopicRow st.topics t.name with
    | none => rfl
    | some r => exact findTopicRow_some_name hf
  simp only [updTopic, hnew, h, Bool.false_eq_true, if_false, Bool.not_true,
    Bool.true_eq_false]
  have hup := findTopicRow_upsert st.topics (_serializeTopic (findTopicRow st.topics t.name) t)
  rw [hdn] at hup
  exact hup

theorem addMessage_stored (st : Store) (m : JsMsg) (h : isReady st = true) :
    (addMessage st m).messages.find? (fun x => x.topic == m.topic && x.seq == m.seq) =
      some (_serializeMessage m) := by
  rw [addMessage_ready st m h]
  show (upsertMsgRows st.messages m).find? _ = _
  unfold upsertMsgRows
  rw [List.find?_append]
  have h1 : (st.messages.filter (fun x => !(x.topic == m.topic && x.seq == m.seq))).find?
      (fun x => x.topic == m.topic && x.seq == m.seq) = none := by
    rw [List.find?_eq_none]
    intro x hx
    have h2 := (List.mem_filter.mp hx).2
    simp only [Bool.not_eq_true'] at h2
    simp [h2]
  rw [h1]
  have hp : ((_serializeMessage m).topic == m.topic && (_serializeMessage m).seq == m.seq)
      = true := by
    simp [_serializeMessage]
  simp [List.find?, hp]

theorem patchTopicCol_single (t : JsTopic) (f : String) (v : JValue) (prev : SqlVal)
    (hf : t.fields = [(f, v)]) :
    patchTopicCol t f prev = serializeJsField v := by
  unfold patchTopicCol
  rw [hf]
  simp [List.lookup]

theorem topic_roundtrip_col (st : Store) (nm f : String) (v : JValue)
    (hv : isNested v = true) (hf : f ∈ TOPIC_FIELDS) :
    getTopicCol (_serializeTopic (findTopicRow st.topics nm)
      { name := nm, fields := [(f, v)] }) f = .text (.jsonEnc v) := by
  rw [getTopicCol_serializeTopic _ _ _ hf,
    patchTopicCol_single _ f v _ rfl, serializeJsField_nested hv]

/-- The blob round-trip property: storing a topic carrying one blob-valued
attribute equal to `v` (respectively a tag list `ls`), or a message carrying
`head`/`content` equal to `v`, and loading the entity back through the row
deserializer yields the attribute set and equal to the stored value. -/
def blobRoundtripProp (st : Store) (nm : String) (sq : Int) (v : JValue)
    (ls : List JValue) : Prop :=
  ((findTopicRow (updTopic st { name := nm, fields := [("public", v)] }).topics nm).map
    (fun row => (_deserializeTopicRow row).pub) = some (some (some v))) ∧
  ((findTopicRow (updTopic st { name := nm, fields := [("trusted", v)] }).topics nm).map
    (fun row => (_deserializeTopicRow row).trusted) = some (some (some v))) ∧
  ((findTopicRow (updTopic st { name := nm, fields := [("private", v)] }).topics nm).map
    (fun row => (_deserializeTopicRow row).priv) = some (some (some v))) ∧
  ((findTopicRow (updTopic st { name := nm, fields := [("_aux", v)] }).topics nm).map
    (fun row => (_deserializeTopicRow row)._aux) = some (some (some v))) ∧
  ((findTopicRow (updTopic st { name := nm, fields := [("creds", v)] }).topics nm).map
    (fun row => (_deserializeTopicRow row).creds) = some (some (some v))) ∧
  ((findTopicRow (updTopic st { name := nm, _tags := some ls }).topics nm).map
    (fun row => (_deserializeTopicRow row).tags) = some (some (some (.arr ls)))) ∧
  (((addMessage st { topic := nm, seq := sq, head := some v }).messages.find?
      (fun x => x.topic == nm && x.seq == sq)).map
    (fun row => (_deserializeMessageRow row).head) = some (some (some v))) ∧
  (((addMessage st { topic := nm, seq := sq, content := some v }).messages.find?
      (fun x => x.topic == nm && x.seq == sq)).map
    (fun row => (_deserializeMessageRow row).content) = some (some (some v)))

/-- C7: blob-valued attributes round-trip unchanged: for every nested
(object/array) JSON value stored as `public`, `trusted`, `private`, `_aux`,
the credential list, the tag set, or a message `head`/`content`, loading the
stored entity back returns the attribute equal to the stored value. -/
theorem blob_attributes_roundtrip (st : Store) (nm : String) (sq : Int) (v : JValue)
    (ls : List JValue) (h : isReady st = true) (hv : isNested v = true) :
    blobRoundtripProp st nm sq v ls := by
  refine ⟨?_, ?_, ?_, ?_, ?_, ?_, ?_, ?_⟩
  · have hst := updTopic_stored st { name := nm, fields := [("public", v)] } h rfl
    rw [hst]
    have hcol : (_serializeTopic (findTopicRow st.topics nm)
        { name := nm, fields := [("public", v)] }).pub = SqlVal.text (.jsonEnc v) :=
      topic_roundtrip_col st nm "public" v hv (by decide)
    simp [Option.map_some', _deserializeTopicRow, hcol, sqlTruthy, _parseJSON]
  · have hst := updTopic_stored st { name := nm, fields := [("trusted", v)] } h rfl
    rw [hst]
    have hcol : (_serializeTopic (findTopicRow st.topics nm)
        { name := nm, fields := [("trusted", v)] }).trusted = SqlVal.text (.jsonEnc v) :=
      topic_roundtrip_col st nm "trusted" v hv (by decide)
    simp [Option.map_some', _deserializeTopicRow, hcol, sqlTruthy, _parseJSON]
  · have hst := updTopic_stored st { name := nm, fields := [("private", v)] } h rfl
    rw [hst]
    have hcol : (_serializeTopic (findTopicRow st.topics nm)
        { name := nm, fields := [("private", v)] }).priv = SqlVal.text (.jsonEnc v) :=
      topic_roundtrip_col st nm "private" v hv (by decide)
    simp [Option.map_some', _deserializeTopicRow, hcol, sqlTruthy, _parseJSON]
  · have hst := updTopic_stored st { name := nm, fields := [("_aux", v)] } h rfl
    rw [hst]
    have hcol : (_serializeTopic (findTopicRow st.topics nm)
        { name := nm, fields := [("_aux", v)] })._aux = SqlVal.text (.jsonEnc v) :=
      topic_roundtrip_col st nm "_aux" v hv (by decide)
    simp [Option.map_some', _deserializeTopicRow, hcol, sqlTruthy, _parseJSON]
  · have hst := updTopic_stored st { name := nm, fields := [("creds", v)] } h rfl
    rw [hst]
    have hcol : (_serializeTopic (findTopicRow st.topics nm)
        { name := nm, fields := [("creds", v)] }).creds = SqlVal.text (.jsonEnc v) :=
      topic_roundtrip_col st nm "creds" v hv (by decide)
    simp [Option.map_some', _deserializeTopicRow, hcol, sqlTruthy, _parseJSON]
  · have hst := updTopic_stored st { name := nm, _tags := some ls } h rfl
    rw [hst]
    have hcol : (_serializeTopic (findTopicRow st.topics nm)
        { name := nm, _tags := some ls }).tags =
        SqlVal.text (.jsonEnc (.arr ls)) := by
      rw [_serializeTopic_tags]
    simp [Option.map_some', _deserializeTopicRow, hcol, sqlTruthy, _parseJSON]
  · have hm : (addMessage st { topic := nm, seq := sq, head := some v }).messages.find?
        (fun x => x.topic == nm && x.seq == sq) =
        some (_serializeMessage { topic := nm, seq := sq, head := some v }) :=
      addMessage_stored st { topic := nm, seq := sq, head := some v } h
    rw [hm]
    have hc : (_serializeMessage { topic := nm, seq := sq, head := some v }).head
        = SqlVal.text (.jsonEnc v) := by
      show serializeJsField v = _
      exact serializeJsField_nested hv
    simp [Option.map_some', _deserializeMessageRow, hc, sqlTruthy, _parseJSON]
  · have hm : (addMessage st { topic := nm, seq := sq, content := some v }).messages.find?
        (fun x => x.topic == nm && x.seq == sq) =
        some (_serializeMessage { topic := nm, seq := sq, content := some v }) :=
      addMessage_stored st { topic := nm, seq := sq, content := some v } h
    rw [hm]
    have hc : (_serializeMessage { topic := nm, seq := sq, content := some v }).content
        = SqlVal.text (.jsonEnc v) := by
      show serializeJsField v = _
      exact serializeJsField_nested hv
    simp [Option.map_some', _deserializeMessageRow, hc, sqlTruthy, _parseJSON]

def stW7 : Store := { ready := true, dbOpen := true }

def vW7 : JValue := .obj [("fn", .str "Alice"), ("photo", .arr [.num 1, .num 2])]

/-- Witness for C7 at a concrete nested value on an empty ready store. -/
theorem blob_attributes_roundtrip_w :
    isReady stW7 = true ∧ isNested vW7 = true ∧
    blobRoundtripProp stW7 "usrX" 3 vW7 [.str "tag1", .str "tag2"] :=
  ⟨rfl, rfl, blob_attributes_roundtrip stW7 "usrX" 3 vW7 [.str "tag1", .str "tag2"] rfl rfl⟩

/-- The no-op behaviour of every store operation on a not-ready store:
mutations leave the state unchanged, enumerations and range reads return the
empty array, single-row reads return `undefined`. -/
def notReadyNoopProp (st : Store) : Prop :=
  (∀ t : JsTopic, updTopic st t = st) ∧
  (∀ (n : String) (d : Bool), markTopicAsDeleted st n d = st) ∧
  (∀ n : String, remTopic st n = st) ∧
  mapTopics st = [] ∧
  (∀ (u : String) (p : Option JValue), updUser st u p = st) ∧
  (∀ u : String, remUser st u = st) ∧
  mapUsers st = [] ∧
  (∀ u : String, getUser st u = none) ∧
  (∀ (tn u : String) (sub : JsSub), updSubscription st tn u sub = st) ∧
  (∀ tn : String, mapSubscriptions st tn = []) ∧
  (∀ m : JsMsg, addMessage st m = st) ∧
  (∀ (tn : String) (sq status : Int), updMessageStatus st tn sq status = st) ∧
  (∀ (tn : String) (f t : Option Int), remMessages st tn f t = st) ∧
  (∀ (tn : String) (q : RangeQuery), readMessages st tn q = ([], [])) ∧
  (∀ (tn : String) (delId : Int) (rs : List SeqRange), addDelLog st tn delId rs = st) ∧
  (∀ (tn : String) (q : RangeQuery), readDelLog st tn q = []) ∧
  (∀ tn : String, maxDelId st tn = none)

/-- C8: every store operation invoked while `isReady()` is false resolves
immediately as a successful no-op — the stored state is unchanged,
enumerations and range reads return an empty array (so no callback fires),
single-row reads return `undefined`, mutations resolve void.  The operations
are total functions in the model, so none rejects on a not-ready store. -/
theorem not_ready_noop (st : Store) (h : isReady st = false) :
    notReadyNoopProp st := by
  refine ⟨?_, ?_, ?_, ?_, ?_, ?_, ?_, ?_, ?_, ?_, ?_, ?_, ?_, ?_, ?_, ?_, ?_⟩
  · intro t
    simp [updTopic, h]
  · intro n d
    simp [markTopicAsDeleted, h]
  · intro n
    simp [remTopic, h]
  · simp [mapTopics, h]
  · intro u p
    cases p <;> simp [updUser, h]
  · intro u
    simp [remUser, h]
  · simp [mapUsers, h]
  · intro u
    simp [getUser, h]
  · intro tn u sub
    simp [updSubscription, h]
  · intro tn
    simp [mapSubscriptions, h]
  · intro m
    simp [addMessage, h]
  · intro tn sq status
    simp [updMessageStatus, h]
  · intro tn f t
    simp [remMessages, h]
  · intro tn q
    simp [readMessages, h]
  · intro tn delId rs
    simp [addDelLog, h]
  · intro tn q
    simp [readDelLog, h]
  · intro tn
    simp [maxDelId, h]

def stW8 : Store :=
  { ready := false, dbOpen := false,
    topics := [{ name := "kept" }], messages := [{ topic := "kept", seq := 1 }] }

/-- Witness for C8 at a concrete uninitialized store holding data. -/
theorem not_ready_noop_w :
    isReady stW8 = false ∧ notReadyNoopProp stW8 :=
  ⟨rfl, not_ready_noop stW8 rfl⟩

/-- C9: the recovery wrapper's policy.  The outcome never depends on whether
closing the stale handle fails (the close error is swallowed); the operation
is never run more than twice; a first-run success is returned as is without
recovery; an error not matching the stale-handle signature propagates
unchanged with no retry; a stale-handle error whose re-initialization fails
propagates the original error after a single run; and a stale-handle error
with successful re-initialization re-runs the operation exactly once on the
re-opened store, propagating that second outcome whether it succeeds or
fails. -/
theorem withRecovery_policy {α : Type} (st : Store)
    (operation : Store → Store × RunResult α) (closeFails initFails : Bool) :
    (_withRecovery st operation closeFails initFails =
      _withRecovery st operation false initFails) ∧
    ((_withRecovery st operation closeFails initFails).2.2 ≤ 2) ∧
    (∀ st1 v, operation st = (st1, .ok v) →
      _withRecovery st operation closeFails initFails = (st1, .ok v, 1)) ∧
    (∀ st1 m, operation st = (st1, .err m) → isStaleHandle m = false →
      _withRecovery st operation closeFails initFails = (st1, .err m, 1)) ∧
    (∀ st1 m, operation st = (st1, .err m) → isStaleHandle m = true → initFails = true →
      _withRecovery st operation closeFails initFails =
        ({ st1 with dbOpen := false, ready := false }, .err m, 1)) ∧
    (∀ st1 m, operation st = (st1, .err m) → isStaleHandle m = true → initFails = false →
      _withRecovery st operation closeFails initFails =
        ((operation { st1 with dbOpen := true, ready := true }).1,
         (operation { st1 with dbOpen := true, ready := true }).2, 2)) := by
  refine ⟨rfl, ?_, ?_, ?_, ?_, ?_⟩
  · unfold _withRecovery
    cases hop : operation st with
    | mk st1 r =>
      cases r with
      | ok v => simp
      | err m =>
        by_cases hm : isStaleHandle m = true
        · simp only [hm, if_true]
          unfold _recoverDatabase
          cases initFails with
          | true => simp
          | false => simp
        · simp only [Bool.not_eq_true] at hm
          simp [hm]
  · intro st1 v hop
    unfold _withRecovery
    rw [hop]
  · intro st1 m hop hm
    unfold _withRecovery
    rw [hop]
    simp [hm]
  · intro st1 m hop hm hinit
    unfold _withRecovery
    rw [hop]
    simp only [hm, if_true]
    unfold _recoverDatabase
    rw [hinit]
    rfl
  · intro st1 m hop hm hinit
    unfold _withRecovery
    rw [hop]
    simp only [hm, if_true]
    unfold _recoverDatabase
    rw [hinit]
    rfl

def stW9 : Store := { ready := false, dbOpen := false }

/-- An operation that fails with a stale-handle signature until the store is
re-opened, then succeeds. -/
def opW9 : Store → Store × RunResult Int :=
  fun s => if isReady s then (s, .ok 42) else (s, .err "NullPointerException: stale handle")

/-- Witness for C9: starting from a broken handle, one recovery and exactly
one retry produce the operation's result. -/
theorem withRecovery_policy_w :
    isStaleHandle "NullPointerException: stale handle" = true ∧
    _withRecovery stW9 opW9 true false =
      ({ stW9 with dbOpen := true, ready := true }, RunResult.ok 42, 2) ∧
    _withRecovery stW9 opW9 true false = _withRecovery stW9 opW9 false false := by
  have h := withRecovery_policy stW9 opW9 true false
  have hstale : isStaleHandle "NullPointerException: stale handle" = true := by decide
  have hlast := h.2.2.2.2.2 stW9 "NullPointerException: stale handle" rfl hstale rfl
  refine ⟨hstale, ?_, h.1⟩
  rw [hlast]
  rfl

end TinodeSQLite
